import Mathlib

/-!
Shallow embedding of the TradeDash server core (`src/server.js`): the
instrument catalog, the mean-reverting price process with its seeding
warm-up, the bounded per-symbol history buffer, the broadcast dispatcher,
and the socket handlers (login with subscription reconciliation,
subscribe, unsubscribe, joinFeed) over an explicit server/DB state.

Prices are modelled as rationals; JavaScript `Number.prototype.toFixed(2)`
followed by `parseFloat` is modelled as rounding to an integer number of
hundredths.  Timestamps are integers (milliseconds).  The Mongo-backed
user store is a list of accounts; `updateOne` touches the first account
matching the email filter (the schema declares emails unique).
-/

namespace TradeDash

/-- The instrument catalog: `Object.keys(STOCK_BASE_PRICES)` in insertion
order (`src/server.js` line 69). -/
def STOCKS : List String := ["GOOG", "TSLA", "AMZN", "META", "NVDA"]

/-- Base reference price per symbol (`STOCK_BASE_PRICES`, lines 62-68). -/
def STOCK_BASE_PRICES : String → ℚ
  | "GOOG" => 175.50
  | "TSLA" => 342.20
  | "AMZN" => 202.10
  | "META" => 595.00
  | "NVDA" => 138.80
  | _ => 0

/-- Model of `x.toFixed(2)` followed by `parseFloat`: round to the nearest
hundredth. -/
def round2 (x : ℚ) : ℚ := (round (x * 100) : ℤ) / 100

/-- A generated price observation (`dataPoint`): two-decimal price and a
wall-clock timestamp in milliseconds. -/
structure Tick where
  price : ℚ
  timestamp : ℤ
  deriving DecidableEq

/-- One steady-state advance of the price process for one symbol
(`setInterval` body, lines 97-105): `newPrice = current + noise + pull`
with `pull = (base - current) * 0.02`, clamped below at 10, then stored
via `toFixed(2)`. -/
def advancePrice (base current noise : ℚ) : ℚ :=
  let pull := (base - current) * (2 / 100)
  let newPrice := current + noise + pull
  round2 (if newPrice < 10 then 10 else newPrice)

/-- History append with eviction (lines 113-114): `push` the data point,
then `shift` (drop the oldest) if the length exceeds 100. -/
def pushHist (h : List Tick) (dp : Tick) : List Tick :=
  let h' := h ++ [dp]
  if h'.length > 100 then h'.tail else h'

/-- One warm-up step of the seeding loop (lines 82-84):
`tempPrice += volatility + pull` with `pull = (base - tempPrice) * 0.05`. -/
def seedStep (base p v : ℚ) : ℚ := p + v + (base - p) * (5 / 100)

/-- The seeding loop (lines 81-90): one history entry per volatility draw,
pushing `tempPrice.toFixed(2)` with synthetic timestamp `now - i * 3000`,
`i` counting down from its initial value. -/
def seedLoop (base : ℚ) (now : ℤ) : ℕ → ℚ → List ℚ → List Tick
  | _, _, [] => []
  | i, p, v :: vs =>
    let p' := seedStep base p v
    ⟨round2 p', now - (i : ℤ) * 3000⟩ :: seedLoop base now (i - 1) p' vs

/-- The raw price after running the warm-up recurrence over the draws. -/
def seedFinal (base : ℚ) : ℚ → List ℚ → ℚ
  | p, [] => p
  | p, v :: vs => seedFinal base (seedStep base p v) vs

/-- The seeded history for one symbol: the loop starts at the base price
with loop counter `i = 100` (the number of draws). -/
def seedHistory (base : ℚ) (now : ℤ) (vs : List ℚ) : List Tick :=
  seedLoop base now vs.length base vs

/-- The current price at the end of seeding (line 91):
`tempPrice.toFixed(2)` after the loop. -/
def seedPrice (base : ℚ) (vs : List ℚ) : ℚ := round2 (seedFinal base base vs)

/-- A persisted subscription as stored in the user document
(`subscriptions: [{symbol, entryPrice}]`, lines 48-51).  `entryPrice` is
`Option` because the Mongo document may lack the field. -/
structure PersistedSub where
  symbol : String
  entryPrice : Option ℚ
  deriving DecidableEq

/-- A cleaned subscription as pushed onto `cleanSubs` (lines 164-167):
the entry price is always a concrete number. -/
structure SubEntry where
  symbol : String
  entryPrice : ℚ
  deriving DecidableEq

/-- A user document in the Mongo store (lines 44-53). -/
structure Account where
  name : String
  email : String
  password : String
  subscriptions : List PersistedSub
  deriving DecidableEq

/-- Model of `User.findOne({email})`: first document with the matching
email. -/
def findOne : List Account → String → Option Account
  | [], _ => none
  | a :: rest, email => if a.email = email then some a else findOne rest email

/-- Model of `User.updateOne({email}, ...)`: apply the update to the subscriptions
of the first document matching the email filter (at most one by the
schema's unique index), leaving the rest untouched. -/
def updateFirst : List Account → String → (List PersistedSub → List PersistedSub) → List Account
  | [], _, _ => []
  | a :: rest, email, f =>
    if a.email = email then { a with subscriptions := f a.subscriptions } :: rest
    else a :: updateFirst rest email f

/-- Model of `$pull: {subscriptions: {symbol: stockCode}}`: remove every element
whose symbol matches. -/
def pullSub (subs : List PersistedSub) (stockCode : String) : List PersistedSub :=
  subs.filter (fun s => s.symbol ≠ stockCode)

/-- Model of `$push: {subscriptions: {symbol, entryPrice}}`: append the
element. -/
def pushSub (subs : List PersistedSub) (stockCode : String) (entryPrice : ℚ) :
    List PersistedSub :=
  subs ++ [⟨stockCode, some entryPrice⟩]

/-- Events the server emits to a socket (section 6 of the interface). -/
inductive Event where
  | authError (msg : String)
  | registerSuccess (msg : String)
  | loadHistory (code : String) (history : List Tick)
  | loginSuccess (name email : String) (savedSubscriptions : List SubEntry)
      (availableStocks : List String)
  | priceUpdate (code : String) (price : ℚ) (timestamp : ℤ)
  deriving DecidableEq

/-- One socket connection: the optional bound identity (`socket.userEmail`)
and the rooms it has joined, tagged with a server-side id. -/
structure SocketSt where
  sid : ℕ
  userEmail : Option String
  rooms : List String
  deriving DecidableEq

/-- Model of `socket.join(room)`: a no-op when the socket is already in
the room. -/
def joinRoom (sock : SocketSt) (room : String) : SocketSt :=
  if room ∈ sock.rooms then sock else { sock with rooms := sock.rooms ++ [room] }

/-- Model of `socket.leave(room)`: remove the room from the membership
set. -/
def leaveRoom (sock : SocketSt) (room : String) : SocketSt :=
  { sock with rooms := sock.rooms.filter (fun r => r ≠ room) }

/-- The entry-price sanity check of the login handler (lines 157-162):
`let entryP = sub.entryPrice; if (!entryP || Math.abs(entryP - currentP) >
currentP * 0.2) entryP = currentP`.  A missing field and a stored 0 are
both falsy, and `||` short-circuits, so the absent case never reaches the
subtraction. -/
def healImpl (currentP : ℚ) : Option ℚ → ℚ
  | none => currentP
  | some e => if e = 0 ∨ |e - currentP| > currentP * (20 / 100) then currentP else e

/-- The body of the reconciliation loop (lines 155-169): when the
subscription's symbol is truthy and in the catalog, push the cleaned
entry; otherwise skip it. -/
def cleanStep (live : String → ℚ) (acc : List SubEntry) (sub : PersistedSub) :
    List SubEntry :=
  if sub.symbol ≠ "" ∧ sub.symbol ∈ STOCKS then
    acc ++ [⟨sub.symbol, healImpl (live sub.symbol) sub.entryPrice⟩]
  else acc

/-- The reconciliation loop of the login handler (lines 152-170):
`user.subscriptions.forEach(...)` pushing onto an initially empty
`cleanSubs`. -/
def cleanSubsOf (live : String → ℚ) (subs : List PersistedSub) : List SubEntry :=
  subs.foldl (cleanStep live) []

/-- The healing policy in the spec's own words: the stored entry price is
replaced by the live price exactly when it is missing, zero, or differs
from the live price by more than 20% of the live price; otherwise it is
kept unchanged. -/
def healSpec (live : ℚ) : Option ℚ → ℚ
  | none => live
  | some e => if e = 0 ∨ |e - live| > live / 5 then live else e

/-- The reconciliation policy in the spec's own words: a persisted
subscription whose symbol is in the catalog is kept with its healed entry
price; subscriptions with symbols outside the catalog are dropped. -/
def reconcileSpec (live : String → ℚ) (subs : List PersistedSub) : List SubEntry :=
  subs.filterMap fun sub =>
    if sub.symbol ∈ STOCKS then
      some ⟨sub.symbol, healSpec (live sub.symbol) sub.entryPrice⟩
    else none

/-- The login handler (lines 143-187).  `verify` stands for
`bcrypt.compare`, an opaque external credential check.  Returns the user
store, the socket and the emitted events; the store is returned so that
frame effects are visible. -/
def loginHandler (verify : String → String → Bool) (db : List Account)
    (live : String → ℚ) (hist : String → List Tick) (sock : SocketSt)
    (email password : String) : List Account × SocketSt × List Event :=
  match findOne db email with
  | none => (db, sock, [.authError "User not found."])
  | some user =>
    if verify password user.password then
      let cleanSubs := cleanSubsOf live user.subscriptions
      let sock' := { sock with userEmail := some user.email }
      let sock'' := cleanSubs.foldl (fun s sub => joinRoom s sub.symbol) sock'
      (db, sock'',
        cleanSubs.map (fun sub => Event.loadHistory sub.symbol (hist sub.symbol))
          ++ [Event.loginSuccess user.name user.email cleanSubs STOCKS])
    else (db, sock, [.authError "Invalid password."])

/-- The subscribe handler (lines 200-222).  `ok1`/`ok2` model whether the
two awaited `User.updateOne` persistence writes succeed or throw; a throw
is caught, skips the rest of the `try` block, and the handler continues. -/
def subscribeHandler (ok1 ok2 : Bool) (db : List Account) (live : String → ℚ)
    (hist : String → List Tick) (sock : SocketSt) (stockCode : String) :
    List Account × SocketSt × List Event :=
  match sock.userEmail with
  | none => (db, sock, [.authError "Session expired. Relogin."])
  | some email =>
    if stockCode ∈ STOCKS then
      let sock' := joinRoom sock stockCode
      let priceNow := live stockCode
      let db1 := if ok1 then updateFirst db email (fun s => pullSub s stockCode) else db
      let db2 :=
        if ok1 && ok2 then updateFirst db1 email (fun s => pushSub s stockCode priceNow)
        else db1
      (db2, sock', [.loadHistory stockCode (hist stockCode)])
    else (db, sock, [])

/-- The unsubscribe handler (lines 225-238).  `ok` models whether the
awaited `$pull` persistence write succeeds; a throw is caught and logged
only. -/
def unsubscribeHandler (ok : Bool) (db : List Account) (sock : SocketSt)
    (stockCode : String) : List Account × SocketSt × List Event :=
  match sock.userEmail with
  | none => (db, sock, [])
  | some email =>
    let sock' := leaveRoom sock stockCode
    let db' := if ok then updateFirst db email (fun s => pullSub s stockCode) else db
    (db', sock', [])

/-- The in-memory broadcast state shared by the dispatcher: per-symbol
current price and history, plus the connected sockets with their room
memberships. -/
structure ServerState where
  currentPrices : String → ℚ
  stockHistory : String → List Tick
  sockets : List SocketSt

/-- The dispatcher body for one symbol (lines 96-117): advance the price,
store it, append the data point to the history with eviction, and emit
`priceUpdate` to every socket in the symbol's room. -/
def tickOne (noise : String → ℚ) (now : ℤ) (st : ServerState) (stockCode : String) :
    ServerState × List (ℕ × Event) :=
  let p := advancePrice (STOCK_BASE_PRICES stockCode) (st.currentPrices stockCode)
    (noise stockCode)
  let dp : Tick := ⟨p, now⟩
  ({ currentPrices := fun c => if c = stockCode then p else st.currentPrices c,
     stockHistory := fun c =>
       if c = stockCode then pushHist (st.stockHistory stockCode) dp
       else st.stockHistory c,
     sockets := st.sockets },
   (st.sockets.filter (fun s => stockCode ∈ s.rooms)).map
     (fun s => (s.sid, Event.priceUpdate stockCode p now)))

/-- Sequential processing of a list of symbols by the dispatcher,
threading the state and concatenating the deliveries in order. -/
def tickLoop (noise : String → ℚ) (now : ℤ) : ServerState → List String →
    ServerState × List (ℕ × Event)
  | st, [] => (st, [])
  | st, c :: cs =>
    let r := tickOne noise now st c
    let rest := tickLoop noise now r.1 cs
    (rest.1, r.2 ++ rest.2)

/-- One full dispatcher tick (the `setInterval` callback, lines 95-118):
process every catalog symbol in order, accumulating the deliveries, each
delivery being a (socket id, event) pair. -/
def dispatcherTick (noise : String → ℚ) (now : ℤ) (st : ServerState) :
    ServerState × List (ℕ × Event) :=
  tickLoop noise now st STOCKS

/-- The (socket id, symbol) head of a delivery, forgetting the price
payload. -/
def deliveryHead (d : ℕ × Event) : ℕ × Option String :=
  (d.1, match d.2 with
        | Event.priceUpdate code _ _ => some code
        | _ => none)

/-! ## Helper lemmas -/

lemma round2_two_decimals (x : ℚ) : ∃ n : ℤ, round2 x = (n : ℚ) / 100 :=
  ⟨round (x * 100), rfl⟩

lemma ten_le_round2 (x : ℚ) (hx : 10 ≤ x) : 10 ≤ round2 x := by
  have h1 : (1000 : ℤ) ≤ round (x * 100) := by
    rw [round_eq, Int.le_floor]
    push_cast
    linarith
  have h2 : (1000 : ℚ) ≤ ((round (x * 100) : ℤ) : ℚ) := by exact_mod_cast h1
  unfold round2
  linarith

lemma advancePrice_eq (base current noise : ℚ) :
    advancePrice base current noise =
      round2 (if current + noise + (base - current) * (2 / 100) < 10 then 10
              else current + noise + (base - current) * (2 / 100)) := rfl

lemma pushHist_eq (h : List Tick) (dp : Tick) :
    pushHist h dp = if h.length + 1 > 100 then (h ++ [dp]).tail else h ++ [dp] := by
  unfold pushHist
  simp [List.length_append]

lemma pushHist_length (h : List Tick) (dp : Tick) (hlen : h.length ≤ 100) :
    (pushHist h dp).length = min (h.length + 1) 100 := by
  rw [pushHist_eq]
  split_ifs with hc
  · simp [List.length_tail, List.length_append]
    omega
  · simp [List.length_append]
    omega

lemma pushHist_suffix (h : List Tick) (dp : Tick) :
    (pushHist h dp) <:+ (h ++ [dp]) := by
  rw [pushHist_eq]
  split_ifs with hc
  · exact List.tail_suffix _
  · exact List.suffix_refl _

lemma IsSuffix_append_right {α} {l₁ l₂ : List α} (h : l₁ <:+ l₂) (u : List α) :
    (l₁ ++ u) <:+ (l₂ ++ u) := by
  obtain ⟨t, ht⟩ := h
  exact ⟨t, by rw [← ht, List.append_assoc]⟩

/-! ## Claims -/

/-- C2: every steady-state advance of the price process, for any symbol's
base price, any current price, and any value of the uniform noise (and
hence any mean-reversion pull), yields a new current price that is at
least 10.00 and is an integer number of hundredths (rounded to 2
decimals). -/
theorem tick_floor_and_two_decimals (base current noise : ℚ) :
    10 ≤ advancePrice base current noise ∧
      ∃ n : ℤ, advancePrice base current noise = (n : ℚ) / 100 := by
  rw [advancePrice_eq]
  refine ⟨?_, round2_two_decimals _⟩
  apply ten_le_round2
  split_ifs with hc
  · norm_num
  · linarith [not_lt.mp hc]

/-- C3: starting from any history buffer of length at most 100 (as the
seeding produces), after any sequence of dispatcher-tick appends the
buffer's length is `min (initial + ticks) 100` — in particular never more
than 100 — and the buffer is a suffix of the full chronological sequence
of entries, so entries stay in append order and only the oldest are
evicted. -/
theorem history_bound_and_order (h0 ds : List Tick) (hlen : h0.length ≤ 100) :
    (ds.foldl pushHist h0).length = min (h0.length + ds.length) 100 ∧
      (ds.foldl pushHist h0) <:+ (h0 ++ ds) := by
  induction ds generalizing h0 with
  | nil =>
    refine ⟨by simpa using (Nat.min_eq_left hlen).symm, ?_⟩
    simp
  | cons d ds ih =>
    have hstep : (pushHist h0 d).length = min (h0.length + 1) 100 :=
      pushHist_length h0 d hlen
    have hstep_le : (pushHist h0 d).length ≤ 100 := by omega
    obtain ⟨ihlen, ihsuf⟩ := ih (pushHist h0 d) hstep_le
    constructor
    · rw [List.foldl_cons, ihlen, hstep]
      simp only [List.length_cons]
      omega
    · rw [List.foldl_cons]
      refine ihsuf.trans ?_
      have h1 : ((pushHist h0 d) ++ ds) <:+ ((h0 ++ [d]) ++ ds) :=
        IsSuffix_append_right (pushHist_suffix h0 d) ds
      simpa [List.append_assoc] using h1

/-- C3 witness: a full buffer of 100 entries plus one more tick stays at
length 100 and is a suffix of the chronological sequence. -/
theorem history_bound_and_order_witness :
    (List.replicate 100 (⟨0, 0⟩ : Tick)).length ≤ 100 ∧
      (([⟨1, 1⟩] : List Tick).foldl pushHist (List.replicate 100 ⟨0, 0⟩)).length =
          min ((List.replicate 100 (⟨0, 0⟩ : Tick)).length + ([⟨1, 1⟩] : List Tick).length) 100 ∧
        (([⟨1, 1⟩] : List Tick).foldl pushHist (List.replicate 100 ⟨0, 0⟩)) <:+
          (List.replicate 100 (⟨0, 0⟩ : Tick) ++ [⟨1, 1⟩]) :=
  ⟨by simp, history_bound_and_order (List.replicate 100 ⟨0, 0⟩) [⟨1, 1⟩] (by simp)⟩

lemma healImpl_eq_healSpec (live : ℚ) (ep : Option ℚ) :
    healImpl live ep = healSpec live ep := by
  cases ep with
  | none => rfl
  | some e =>
    have h : live * (20 / 100) = live / 5 := by ring
    simp only [healImpl, healSpec, h]

lemma empty_not_in_STOCKS : "" ∉ STOCKS := by decide

lemma cleanStep_eq (live : String → ℚ) (acc : List SubEntry) (sub : PersistedSub) :
    cleanStep live acc sub =
      acc ++ (if sub.symbol ∈ STOCKS then
        [⟨sub.symbol, healSpec (live sub.symbol) sub.entryPrice⟩] else []) := by
  unfold cleanStep
  by_cases hmem : sub.symbol ∈ STOCKS
  · have hne : sub.symbol ≠ "" := by
      intro he
      rw [he] at hmem
      exact empty_not_in_STOCKS hmem
    simp [hmem, hne, healImpl_eq_healSpec]
  · simp [hmem]

/-- C1: the reconciliation performed on login coincides pointwise with
the spec's policy: persisted subscriptions whose symbol is outside the
catalog are dropped, and for the rest the stored entry price is replaced
by the live price exactly when it is missing, zero, or differs from the
live price by more than 20% of the live price, and kept unchanged
otherwise. -/
theorem reconcile_matches_spec (live : String → ℚ) (subs : List PersistedSub) :
    cleanSubsOf live subs = reconcileSpec live subs := by
  have go : ∀ (l : List PersistedSub) (acc : List SubEntry),
      l.foldl (cleanStep live) acc = acc ++ reconcileSpec live l := by
    intro l
    induction l with
    | nil => intro acc; simp [reconcileSpec]
    | cons s rest ih =>
      intro acc
      rw [List.foldl_cons, ih, cleanStep_eq]
      by_cases hmem : s.symbol ∈ STOCKS
      · simp [reconcileSpec, List.filterMap_cons, hmem]
      · simp [reconcileSpec, List.filterMap_cons, hmem]
  unfold cleanSubsOf
  rw [go]
  simp

/-- C9: the login handler performs no write to the account store: the
store it returns is the one it was given, so a persisted stale entry
price survives login and is re-detected and re-corrected at every
subsequent login. -/
theorem login_no_writeback (verify : String → String → Bool) (db : List Account)
    (live : String → ℚ) (hist : String → List Tick) (sock : SocketSt)
    (email password : String) :
    (loginHandler verify db live hist sock email password).1 = db := by
  unfold loginHandler
  cases findOne db email with
  | none => rfl
  | some user => by_cases h : verify password user.password <;> simp [h]

/-- C5: subscribe on a connection with no bound account reports an
authentication error and has no side effects: the account store, the
connection's group membership, and everything else about the connection
are unchanged. -/
theorem subscribe_unauthenticated_no_effect (ok1 ok2 : Bool) (db : List Account)
    (live : String → ℚ) (hist : String → List Tick) (sock : SocketSt) (code : String)
    (h : sock.userEmail = none) :
    subscribeHandler ok1 ok2 db live hist sock code =
      (db, sock, [Event.authError "Session expired. Relogin."]) := by
  unfold subscribeHandler
  rw [h]

/-- C5 witness: an unauthenticated socket subscribing to a catalog symbol
gets an auth error and nothing changes. -/
theorem subscribe_unauthenticated_witness :
    (⟨0, none, []⟩ : SocketSt).userEmail = none ∧
      subscribeHandler true true [] (fun _ => 0) (fun _ => []) ⟨0, none, []⟩ "GOOG" =
        ([], ⟨0, none, []⟩, [Event.authError "Session expired. Relogin."]) :=
  ⟨rfl, subscribe_unauthenticated_no_effect true true [] (fun _ => 0) (fun _ => [])
    ⟨0, none, []⟩ "GOOG" rfl⟩

lemma subscribeHandler_sock_and_emits (ok1 ok2 : Bool) (db : List Account)
    (live : String → ℚ) (hist : String → List Tick) (sock : SocketSt) (code email : String)
    (hauth : sock.userEmail = some email) (hcode : code ∈ STOCKS) :
    (subscribeHandler ok1 ok2 db live hist sock code).2.1 = joinRoom sock code ∧
      (subscribeHandler ok1 ok2 db live hist sock code).2.2 =
        [Event.loadHistory code (hist code)] := by
  unfold subscribeHandler
  rw [hauth]
  simp [hcode]

/-- C7: for an authenticated connection and catalog symbol, whatever the
outcome of the two persistence writes (either may throw and be caught),
the subscribe handler still joins the connection to the symbol's group
and still replies with the history snapshot. -/
theorem subscribe_persistence_failure_still_serves (ok1 ok2 : Bool) (db : List Account)
    (live : String → ℚ) (hist : String → List Tick) (sock : SocketSt) (code email : String)
    (hauth : sock.userEmail = some email) (hcode : code ∈ STOCKS) :
    (subscribeHandler ok1 ok2 db live hist sock code).2.1 = joinRoom sock code ∧
      (subscribeHandler ok1 ok2 db live hist sock code).2.2 =
        [Event.loadHistory code (hist code)] :=
  subscribeHandler_sock_and_emits ok1 ok2 db live hist sock code email hauth hcode

/-- C7 witness: with both persistence writes failing, the subscriber is
still joined to the room and still receives the history snapshot. -/
theorem subscribe_persistence_failure_witness :
    (⟨0, some "a@b.c", []⟩ : SocketSt).userEmail = some "a@b.c" ∧ "GOOG" ∈ STOCKS ∧
      (subscribeHandler false false [] (fun _ => 0) (fun _ => [])
          ⟨0, some "a@b.c", []⟩ "GOOG").2.1 = joinRoom ⟨0, some "a@b.c", []⟩ "GOOG" ∧
        (subscribeHandler false false [] (fun _ => 0) (fun _ => [])
            ⟨0, some "a@b.c", []⟩ "GOOG").2.2 = [Event.loadHistory "GOOG" []] :=
  ⟨rfl, by decide,
    subscribe_persistence_failure_still_serves false false [] (fun _ => 0) (fun _ => [])
      ⟨0, some "a@b.c", []⟩ "GOOG" "a@b.c" rfl (by decide)⟩

/-- C10: the unsubscribe handler has no catalog guard: for an
authenticated connection and any symbol string whatsoever, it leaves the
group (a no-op when not a member), issues the persisted-subscription
removal for that symbol when the write goes through, and never emits an
error. -/
theorem unsubscribe_unvalidated (ok : Bool) (db : List Account) (sock : SocketSt)
    (code email : String) (hauth : sock.userEmail = some email) :
    (unsubscribeHandler ok db sock code).2.1.rooms =
        sock.rooms.filter (fun r => r ≠ code) ∧
      (ok = true →
        (unsubscribeHandler ok db sock code).1 =
          updateFirst db email (fun s => pullSub s code)) ∧
      (unsubscribeHandler ok db sock code).2.2 = [] := by
  unfold unsubscribeHandler
  rw [hauth]
  exact ⟨rfl, fun hok => by simp [hok], rfl⟩

/-- C10 witness: unsubscribing from a symbol not in the catalog still
leaves the group, still issues the persisted removal, and reports
nothing. -/
theorem unsubscribe_unvalidated_witness :
    (⟨0, some "a@b.c", ["FAKE"]⟩ : SocketSt).userEmail = some "a@b.c" ∧
      (unsubscribeHandler true [⟨"n", "a@b.c", "pw", [⟨"FAKE", some 5⟩]⟩]
          ⟨0, some "a@b.c", ["FAKE"]⟩ "FAKE").2.1.rooms =
        (["FAKE"] : List String).filter (fun r => r ≠ "FAKE") ∧
      (true = true →
        (unsubscribeHandler true [⟨"n", "a@b.c", "pw", [⟨"FAKE", some 5⟩]⟩]
            ⟨0, some "a@b.c", ["FAKE"]⟩ "FAKE").1 =
          updateFirst [⟨"n", "a@b.c", "pw", [⟨"FAKE", some 5⟩]⟩] "a@b.c"
            (fun s => pullSub s "FAKE")) ∧
      (unsubscribeHandler true [⟨"n", "a@b.c", "pw", [⟨"FAKE", some 5⟩]⟩]
          ⟨0, some "a@b.c", ["FAKE"]⟩ "FAKE").2.2 = [] :=
  ⟨rfl, (unsubscribe_unvalidated true [⟨"n", "a@b.c", "pw", [⟨"FAKE", some 5⟩]⟩]
    ⟨0, some "a@b.c", ["FAKE"]⟩ "FAKE" "a@b.c" rfl).1,
    (unsubscribe_unvalidated true [⟨"n", "a@b.c", "pw", [⟨"FAKE", some 5⟩]⟩]
      ⟨0, some "a@b.c", ["FAKE"]⟩ "FAKE" "a@b.c" rfl).2⟩

lemma findOne_updateFirst (db : List Account) (email : String)
    (f : List PersistedSub → List PersistedSub) :
    findOne (updateFirst db email f) email =
      (findOne db email).map (fun a => { a with subscriptions := f a.subscriptions }) := by
  induction db with
  | nil => rfl
  | cons a rest ih =>
    by_cases h : a.email = email
    · simp [updateFirst, findOne, h]
    · simp [updateFirst, findOne, h, ih]

lemma joinRoom_userEmail (sock : SocketSt) (room : String) :
    (joinRoom sock room).userEmail = sock.userEmail := by
  unfold joinRoom
  split_ifs <;> rfl

lemma pullSub_pushSub (subs : List PersistedSub) (code : String) (p : ℚ) :
    pullSub (pushSub subs code p) code = pullSub subs code := by
  unfold pullSub pushSub
  rw [List.filter_append]
  simp

lemma pullSub_idem (subs : List PersistedSub) (code : String) :
    pullSub (pullSub subs code) code = pullSub subs code := by
  unfold pullSub
  rw [List.filter_filter]
  simp

lemma filter_pullSub_eq_nil (subs : List PersistedSub) (code : String) :
    (pullSub subs code).filter (fun s => s.symbol = code) = [] := by
  unfold pullSub
  rw [List.filter_filter]
  simp

lemma subscribeHandler_ok_db (db : List Account) (live : String → ℚ)
    (hist : String → List Tick) (sock : SocketSt) (code email : String)
    (hauth : sock.userEmail = some email) (hcode : code ∈ STOCKS) :
    (subscribeHandler true true db live hist sock code).1 =
      updateFirst (updateFirst db email (fun s => pullSub s code)) email
        (fun s => pushSub s code (live code)) := by
  unfold subscribeHandler
  rw [hauth]
  simp [hcode]

/-- C4: subscribing twice to the same catalog symbol from the same
authenticated connection, with the persistence writes succeeding, leaves
the account with exactly one persisted subscription for that symbol,
whose entry price is the live price at the second call; the resulting
list is the original minus that symbol plus the fresh entry
(remove-then-insert, not update-in-place). -/
theorem subscribe_twice_replaces (db : List Account) (live1 live2 : String → ℚ)
    (hist : String → List Tick) (sock : SocketSt) (code email : String) (a : Account)
    (hauth : sock.userEmail = some email) (hcode : code ∈ STOCKS)
    (hacct : findOne db email = some a) :
    ∃ a', findOne (subscribeHandler true true
          (subscribeHandler true true db live1 hist sock code).1 live2 hist
          (subscribeHandler true true db live1 hist sock code).2.1 code).1 email = some a' ∧
      a'.subscriptions.filter (fun s => s.symbol = code) = [⟨code, some (live2 code)⟩] ∧
      a'.subscriptions = pullSub a.subscriptions code ++ [⟨code, some (live2 code)⟩] := by
  have hsock1 : (subscribeHandler true true db live1 hist sock code).2.1 =
      joinRoom sock code :=
    (subscribeHandler_sock_and_emits true true db live1 hist sock code email
      hauth hcode).1
  have hauth2 : (joinRoom sock code).userEmail = some email := by
    rw [joinRoom_userEmail, hauth]
  rw [subscribeHandler_ok_db db live1 hist sock code email hauth hcode, hsock1,
    subscribeHandler_ok_db _ live2 hist _ code email hauth2 hcode]
  rw [findOne_updateFirst, findOne_updateFirst, findOne_updateFirst, findOne_updateFirst,
    hacct]
  simp only [Option.map_some']
  refine ⟨_, rfl, ?_, ?_⟩
  · rw [pullSub_pushSub, pullSub_idem]
    simp only [pushSub]
    rw [List.filter_append, filter_pullSub_eq_nil]
    simp
  · rw [pullSub_pushSub, pullSub_idem]
    simp only [pushSub]

/-- C4 witness: a fresh account subscribing twice to GOOG at prices 100
then 120 ends with the single persisted entry (GOOG, 120). -/
theorem subscribe_twice_replaces_witness :
    (⟨0, some "a@b.c", []⟩ : SocketSt).userEmail = some "a@b.c" ∧ "GOOG" ∈ STOCKS ∧
      findOne [⟨"n", "a@b.c", "pw", []⟩] "a@b.c" = some ⟨"n", "a@b.c", "pw", []⟩ ∧
      ∃ a', findOne (subscribeHandler true true
            (subscribeHandler true true [⟨"n", "a@b.c", "pw", []⟩] (fun _ => 100)
              (fun _ => []) ⟨0, some "a@b.c", []⟩ "GOOG").1 (fun _ => 120) (fun _ => [])
            (subscribeHandler true true [⟨"n", "a@b.c", "pw", []⟩] (fun _ => 100)
              (fun _ => []) ⟨0, some "a@b.c", []⟩ "GOOG").2.1 "GOOG").1 "a@b.c" = some a' ∧
        a'.subscriptions.filter (fun s => s.symbol = "GOOG") =
          [⟨"GOOG", some ((fun _ => (120 : ℚ)) "GOOG")⟩] ∧
        a'.subscriptions = pullSub ([] : List PersistedSub) "GOOG" ++
          [⟨"GOOG", some ((fun _ => (120 : ℚ)) "GOOG")⟩] :=
  ⟨rfl, by decide, by decide,
    subscribe_twice_replaces [⟨"n", "a@b.c", "pw", []⟩] (fun _ => 100) (fun _ => 120)
      (fun _ => []) ⟨0, some "a@b.c", []⟩ "GOOG" "a@b.c" ⟨"n", "a@b.c", "pw", []⟩
      rfl (by decide) (by decide)⟩

lemma seedFinal_lower (base : ℚ) (vs : List ℚ) :
    ∀ p : ℚ, (∀ v ∈ vs, |v| ≤ 2 / 5) → base - 8 ≤ p → base - 8 ≤ seedFinal base p vs := by
  induction vs with
  | nil => intro p _ hp; simpa [seedFinal] using hp
  | cons v rest ih =>
    intro p hv hp
    have hvabs : |v| ≤ 2 / 5 := hv v (by simp)
    have hvlo : -(2 / 5) ≤ v := neg_le_of_abs_le hvabs
    have hstep : base - 8 ≤ seedStep base p v := by
      unfold seedStep
      linarith
    simpa [seedFinal] using ih (seedStep base p v) (fun w hw => hv w (by simp [hw])) hstep

lemma seedLoop_length (base : ℚ) (now : ℤ) :
    ∀ (vs : List ℚ) (i : ℕ) (p : ℚ), (seedLoop base now i p vs).length = vs.length := by
  intro vs
  induction vs with
  | nil => intro i p; rfl
  | cons v rest ih => intro i p; simp [seedLoop, ih]

lemma seedLoop_prices (base : ℚ) (now : ℤ) :
    ∀ (vs : List ℚ) (i : ℕ) (p : ℚ) (t : Tick), t ∈ seedLoop base now i p vs →
      ∃ n : ℤ, t.price = (n : ℚ) / 100 := by
  intro vs
  induction vs with
  | nil => intro i p t ht; simp [seedLoop] at ht
  | cons v rest ih =>
    intro i p t ht
    simp only [seedLoop, List.mem_cons] at ht
    rcases ht with rfl | ht
    · exact round2_two_decimals _
    · exact ih (i - 1) (seedStep base p v) t ht

lemma seedLoop_timestamps (base : ℚ) (now : ℤ) :
    ∀ (vs : List ℚ) (i : ℕ) (p : ℚ), vs.length ≤ i →
      (seedLoop base now i p vs).map Tick.timestamp =
        (List.range vs.length).map (fun (j : ℕ) => now - ((i : ℤ) - (j : ℤ)) * 3000) := by
  intro vs
  induction vs with
  | nil => intro i p _; rfl
  | cons v rest ih =>
    intro i p hi
    have hi1 : 1 ≤ i := le_trans (by simp) hi
    have hrest : rest.length ≤ i - 1 := by
      simp only [List.length_cons] at hi
      omega
    have hcast : ((i - 1 : ℕ) : ℤ) = (i : ℤ) - 1 := by
      omega
    simp only [seedLoop, List.map_cons, List.length_cons, List.range_succ_eq_map,
      List.map_map, ih (i - 1) (seedStep base p v) hrest, hcast]
    simp only [List.cons.injEq]
    refine ⟨by push_cast; ring, ?_⟩
    apply List.map_congr_left
    intro j _
    simp only [Function.comp]
    push_cast
    ring

/-- C6: for every catalog symbol, any admissible sequence of 100
volatility draws (each of magnitude at most 0.4), and any clock value,
the post-warm-up current price is at least 10.00, the seeded history has
exactly 100 entries, every entry's price is an integer number of
hundredths, and the synthetic timestamps run from 100 steps in the past
up to 3000 ms before `now` in fixed 3000 ms increments. -/
theorem seeding_warmup (sym : String) (now : ℤ) (vs : List ℚ)
    (hsym : sym ∈ STOCKS) (hlen : vs.length = 100)
    (hvol : ∀ v ∈ vs, |v| ≤ 2 / 5) :
    10 ≤ seedPrice (STOCK_BASE_PRICES sym) vs ∧
      (seedHistory (STOCK_BASE_PRICES sym) now vs).length = 100 ∧
      (∀ t ∈ seedHistory (STOCK_BASE_PRICES sym) now vs,
        ∃ n : ℤ, t.price = (n : ℚ) / 100) ∧
      (seedHistory (STOCK_BASE_PRICES sym) now vs).map Tick.timestamp =
        (List.range 100).map (fun (j : ℕ) => now - ((100 : ℤ) - (j : ℤ)) * 3000) := by
  have hb : (138.8 : ℚ) ≤ STOCK_BASE_PRICES sym := by
    fin_cases hsym <;> norm_num [STOCK_BASE_PRICES]
  refine ⟨?_, ?_, ?_, ?_⟩
  · unfold seedPrice
    apply ten_le_round2
    have := seedFinal_lower (STOCK_BASE_PRICES sym) vs (STOCK_BASE_PRICES sym) hvol
      (by linarith)
    linarith
  · rw [seedHistory, seedLoop_length, hlen]
  · intro t ht
    exact seedLoop_prices (STOCK_BASE_PRICES sym) now vs vs.length (STOCK_BASE_PRICES sym)
      t ht
  · rw [seedHistory,
      seedLoop_timestamps (STOCK_BASE_PRICES sym) now vs vs.length (STOCK_BASE_PRICES sym)
        le_rfl, hlen]
    norm_num

/-- C6 witness: GOOG with all-zero volatility draws satisfies the
warm-up guarantees. -/
theorem seeding_warmup_witness :
    "GOOG" ∈ STOCKS ∧ (List.replicate 100 (0 : ℚ)).length = 100 ∧
      (∀ v ∈ List.replicate 100 (0 : ℚ), |v| ≤ 2 / 5) ∧
      (10 ≤ seedPrice (STOCK_BASE_PRICES "GOOG") (List.replicate 100 0) ∧
        (seedHistory (STOCK_BASE_PRICES "GOOG") 0 (List.replicate 100 0)).length = 100 ∧
        (∀ t ∈ seedHistory (STOCK_BASE_PRICES "GOOG") 0 (List.replicate 100 0),
          ∃ n : ℤ, t.price = (n : ℚ) / 100) ∧
        (seedHistory (STOCK_BASE_PRICES "GOOG") 0 (List.replicate 100 0)).map Tick.timestamp =
          (List.range 100).map (fun (j : ℕ) => 0 - ((100 : ℤ) - (j : ℤ)) * 3000)) :=
  ⟨by decide, by simp, fun v hv => by
      rw [List.eq_of_mem_replicate hv]
      norm_num,
    seeding_warmup "GOOG" 0 (List.replicate 100 0) (by decide) (by simp)
      (fun v hv => by rw [List.eq_of_mem_replicate hv]; norm_num)⟩

lemma tickOne_sockets (noise : String → ℚ) (now : ℤ) (st : ServerState) (c : String) :
    (tickOne noise now st c).1.sockets = st.sockets := rfl

lemma tickOne_deliveries (noise : String → ℚ) (now : ℤ) (st : ServerState) (c : String) :
    (tickOne noise now st c).2 =
      (st.sockets.filter (fun s => c ∈ s.rooms)).map
        (fun s => (s.sid, Event.priceUpdate c
          (advancePrice (STOCK_BASE_PRICES c) (st.currentPrices c) (noise c)) now)) := rfl

lemma tickLoop_deliveries (noise : String → ℚ) (now : ℤ) :
    ∀ (codes : List String) (st : ServerState),
      ((tickLoop noise now st codes).2).map deliveryHead =
        codes.flatMap (fun c =>
          (st.sockets.filter (fun s => c ∈ s.rooms)).map (fun s => (s.sid, some c))) := by
  intro codes
  induction codes with
  | nil => intro st; rfl
  | cons c cs ih =>
    intro st
    simp only [tickLoop, List.map_append, List.flatMap_cons]
    rw [ih (tickOne noise now st c).1, tickOne_sockets, tickOne_deliveries]
    congr 1
    rw [List.map_map]
    rfl

lemma STOCKS_nodup : STOCKS.Nodup := by decide

lemma flatMap_nil_of_notin {β : Type} (x : String → β) (c : String) :
    ∀ ds : List String, c ∉ ds →
      ds.flatMap (fun c' => if c' = c then [x c'] else []) = [] := by
  intro ds
  induction ds with
  | nil => intro _; rfl
  | cons d ds ih =>
    intro h
    rw [List.flatMap_cons]
    have hd : d ≠ c := fun he => h (by simp [he])
    simp [hd, ih (fun hmem => h (by simp [hmem]))]

lemma flatMap_ite_eq_single {β : Type} (x : String → β) :
    ∀ (codes : List String) (c : String), codes.Nodup → c ∈ codes →
      codes.flatMap (fun c' => if c' = c then [x c'] else []) = [x c] := by
  intro codes
  induction codes with
  | nil => intro c _ hmem; simp at hmem
  | cons d ds ih =>
    intro c hnd hmem
    rw [List.flatMap_cons]
    rcases List.mem_cons.mp hmem with rfl | hmem'
    · have hnotin : c ∉ ds := (List.nodup_cons.mp hnd).1
      simp [flatMap_nil_of_notin x c ds hnotin]
    · have hd : d ≠ c := by
        rintro rfl
        exact (List.nodup_cons.mp hnd).1 hmem'
      simp [hd, ih c (List.nodup_cons.mp hnd).2 hmem']

/-- A concrete broadcast state with the five catalog symbols at their base
prices, one connection joined to GOOG's group only, and one connection
joined to no group. -/
def oneSubscriberState : ServerState :=
  { currentPrices := STOCK_BASE_PRICES
    stockHistory := fun _ => []
    sockets := [⟨0, some "a@b.c", ["GOOG"]⟩, ⟨1, none, []⟩] }

/-- C8 counterexample: in a state where exactly one connection is joined
to exactly one symbol's group (and a second connection to none), one
dispatcher tick over the 5-symbol catalog delivers exactly 1 priceUpdate
event in total — not 5 as claimed. -/
theorem one_subscriber_tick_not_five :
    (dispatcherTick (fun _ => 0) 0 oneSubscriberState).2.length = 1 ∧
      (dispatcherTick (fun _ => 0) 0 oneSubscriberState).2.length ≠ 5 := by
  have h : (dispatcherTick (fun _ => 0) 0 oneSubscriberState).2.length = 1 := by
    rw [show (dispatcherTick (fun _ => 0) 0 oneSubscriberState).2 =
        (tickLoop (fun _ => 0) 0 oneSubscriberState STOCKS).2 from rfl,
      ← List.length_map _ deliveryHead,
      tickLoop_deliveries (fun _ => 0) 0 STOCKS oneSubscriberState]
    decide
  exact ⟨h, by omega⟩

/-- C8 (amended): during one dispatcher tick over the 5-symbol catalog,
each symbol's tick is delivered to exactly the connections currently in
that symbol's group; so with exactly one connection joined to exactly one
catalog symbol's group and another connection joined to no group, exactly
1 priceUpdate event is delivered in total, it goes to the joined
connection for its symbol, and the group-less connection receives zero
events. -/
theorem one_subscriber_tick_deliveries (noise : String → ℚ) (now : ℤ)
    (st : ServerState) (s₀ s₁ : SocketSt) (c : String)
    (hs : st.sockets = [s₀, s₁]) (h0 : s₀.rooms = [c]) (h1 : s₁.rooms = [])
    (hc : c ∈ STOCKS) :
    (dispatcherTick noise now st).2.map deliveryHead = [(s₀.sid, some c)] ∧
      (dispatcherTick noise now st).2.length = 1 := by
  have hm := tickLoop_deliveries noise now STOCKS st
  rw [hs] at hm
  have hfil : ∀ c' : String,
      (([s₀, s₁] : List SocketSt).filter (fun s => c' ∈ s.rooms)) =
        if c' = c then [s₀] else [] := by
    intro c'
    by_cases hcc : c' = c
    · subst hcc
      simp [List.filter_cons, h0, h1]
    · simp [List.filter_cons, h0, h1, hcc]
  have hfun : (fun c' => ((([s₀, s₁] : List SocketSt).filter
        (fun s => c' ∈ s.rooms)).map (fun s => (s.sid, some c')))) =
      fun c' => if c' = c then [((s₀.sid : ℕ), some c')] else [] := by
    funext c'
    rw [hfil c']
    by_cases hcc : c' = c <;> simp [hcc]
  have key : (dispatcherTick noise now st).2.map deliveryHead = [(s₀.sid, some c)] := by
    rw [show (dispatcherTick noise now st).2 = (tickLoop noise now st STOCKS).2 from rfl,
      hm, hfun]
    exact flatMap_ite_eq_single (fun c' => ((s₀.sid : ℕ), some c')) STOCKS c
      STOCKS_nodup hc
  refine ⟨key, ?_⟩
  have hlen := congrArg List.length key
  simpa using hlen

/-- C8 witness: the concrete two-connection state realizes the amended
claim with symbol GOOG. -/
theorem one_subscriber_tick_deliveries_witness :
    oneSubscriberState.sockets =
        [⟨0, some "a@b.c", ["GOOG"]⟩, ⟨1, none, []⟩] ∧
      (⟨0, some "a@b.c", ["GOOG"]⟩ : SocketSt).rooms = ["GOOG"] ∧
      (⟨1, none, []⟩ : SocketSt).rooms = [] ∧ "GOOG" ∈ STOCKS ∧
      ((dispatcherTick (fun _ => 0) 0 oneSubscriberState).2.map deliveryHead =
          [((0 : ℕ), some "GOOG")] ∧
        (dispatcherTick (fun _ => 0) 0 oneSubscriberState).2.length = 1) :=
  ⟨rfl, rfl, rfl, by decide,
    one_subscriber_tick_deliveries (fun _ => 0) 0 oneSubscriberState
      ⟨0, some "a@b.c", ["GOOG"]⟩ ⟨1, none, []⟩ "GOOG" rfl rfl rfl (by decide)⟩

end TradeDash
